import Mathlib

/-!
Verification model of the SAMwise interactive canvas engine.

The definitions below are shallow embeddings of the Python sources:
`src/ui/drawing_canvas.py` (coordinate mapping, zoom, pan clamping, crop,
marker registry, mask replacement), `src/utils/image_processing.py`
(threshold-to-mask generator), `src/ui/main_window.py` together with
`src/services/model_service.py` (oracle-driven mask regeneration), and
`src/services/image_manager.py` (batch crop).

Numeric conventions: Python floats are modelled by exact rationals;
Python `int()` truncates toward zero (`itrunc`); Python `//` on integers
floors (`Int.fdiv`); Qt `qRound` rounds half away from zero (`qtRound`);
C++ integer division in Qt truncates toward zero (`Int.tdiv`).
-/

/-- Truncation toward zero of a rational, the behaviour of Python `int()`
applied to a float. -/
def itrunc (q : ℚ) : ℤ := if 0 ≤ q then ⌊q⌋ else ⌈q⌉

/-- Rounding half away from zero, the behaviour of Qt `qRound` (used when a
`QSize` is multiplied by a `qreal`). -/
def qtRound (q : ℚ) : ℤ := if 0 ≤ q then ⌊q + 1/2⌋ else ⌈q - 1/2⌉

lemma itrunc_intCast (n : ℤ) : itrunc (n : ℚ) = n := by
  unfold itrunc
  split <;> simp

/-- Truncation toward zero moves a rational by strictly less than one. -/
lemma abs_itrunc_sub_lt (q : ℚ) : |(itrunc q : ℚ) - q| < 1 := by
  unfold itrunc
  split
  · have h1 := Int.floor_le q
    have h2 := Int.sub_one_lt_floor q
    rw [abs_lt]
    constructor <;> linarith
  · have h1 := Int.le_ceil q
    have h2 := Int.ceil_lt_add_one q
    rw [abs_lt]
    constructor <;> linarith

/-- Truncating an integer perturbed by less than one moves it by at most one. -/
lemma abs_itrunc_int_add_le (n : ℤ) (e : ℚ) (he : |e| < 1) :
    |itrunc ((n : ℚ) + e) - n| ≤ 1 := by
  rw [abs_lt] at he
  unfold itrunc
  split
  · rw [add_comm, Int.floor_add_int]
    have h1 : (0 : ℤ) ≤ ⌊e⌋ + 1 := by
      have : ((-1 : ℤ) : ℚ) ≤ e := by push_cast; linarith [he.1]
      have := Int.le_floor.mpr this
      omega
    have h2 : ⌊e⌋ < 1 := Int.floor_lt.mpr (by push_cast; linarith [he.2])
    rw [abs_le]
    omega
  · rw [add_comm, Int.ceil_add_int]
    have h1 : (-1 : ℤ) < ⌈e⌉ := Int.lt_ceil.mpr (by push_cast; linarith [he.1])
    have h2 : ⌈e⌉ ≤ 1 := Int.ceil_le.mpr (by push_cast; linarith [he.2])
    rw [abs_le]
    omega

/-- Key arithmetic fact behind the zoom-to-cursor bound: reconstructing an
image coordinate `ip` through a truncated screen position and a truncated
division at scale `s ≥ 1` moves it by at most one. -/
lemma itrunc_zoom_bound (s : ℚ) (hs : 1 ≤ s) (ip p : ℤ) :
    |itrunc (((itrunc ((ip : ℚ) * s + (p : ℚ)) : ℤ) - p : ℚ) / s) - ip| ≤ 1 := by
  have hspos : (0 : ℚ) < s := by linarith
  set t : ℤ := itrunc ((ip : ℚ) * s + (p : ℚ)) with ht
  have he : |(t : ℚ) - ((ip : ℚ) * s + (p : ℚ))| < 1 := abs_itrunc_sub_lt _
  have hrw : ((t : ℚ) - (p : ℚ)) / s = (ip : ℚ) + ((t : ℚ) - ((ip : ℚ) * s + (p : ℚ))) / s := by
    field_simp
    ring
  rw [hrw]
  apply abs_itrunc_int_add_le
  rw [abs_div, abs_of_pos hspos]
  calc |(t : ℚ) - ((ip : ℚ) * s + (p : ℚ))| / s
      ≤ |(t : ℚ) - ((ip : ℚ) * s + (p : ℚ))| := div_le_self (abs_nonneg _) hs
    _ < 1 := he

/-- Companion fact for scales `0 < s ≤ 1`: sending a screen coordinate to
image space and back moves it by at most one. -/
lemma itrunc_screen_bound (s : ℚ) (h0 : 0 < s) (h1 : s ≤ 1) (q p : ℤ) :
    |itrunc ((itrunc (((q : ℚ) - (p : ℚ)) / s) : ℚ) * s + (p : ℚ)) - q| ≤ 1 := by
  set ip : ℤ := itrunc (((q : ℚ) - (p : ℚ)) / s) with hip
  have he : |(ip : ℚ) - ((q : ℚ) - (p : ℚ)) / s| < 1 := abs_itrunc_sub_lt _
  have key : (ip : ℚ) * s + (p : ℚ)
      = (q : ℚ) + ((ip : ℚ) - ((q : ℚ) - (p : ℚ)) / s) * s := by
    field_simp
    ring
  rw [key]
  apply abs_itrunc_int_add_le
  rw [abs_mul, abs_of_pos h0]
  calc |(ip : ℚ) - ((q : ℚ) - (p : ℚ)) / s| * s
      < 1 * s := mul_lt_mul_of_pos_right he h0
    _ = s := one_mul s
    _ ≤ 1 := h1

/-! ## Rasters and canvas state (`src/ui/drawing_canvas.py`) -/

/-- One RGBA pixel; channel values are bytes. -/
structure Pixel where
  r : ℕ
  g : ℕ
  b : ℕ
  a : ℕ
deriving DecidableEq

/-- A raster buffer: a `QImage` of the given width and height. A null
`QImage` is modelled as `Option.none` at the use sites, so a `Raster` is
always a non-null buffer. -/
structure Raster where
  w : ℕ
  h : ℕ
  pix : ℕ → ℕ → Pixel

/-- The state of `DrawingCanvas` relevant to coordinate mapping, zooming,
panning, markers and masks. `widgetW`/`widgetH` are `self.width()` and
`self.height()` of the widget. -/
structure CanvasState where
  image : Option Raster
  mask : Option Raster
  widgetW : ℤ
  widgetH : ℤ
  scale_factor : ℚ
  min_scale_factor : ℚ
  panOffset : ℤ × ℤ
  sam_markers : List (ℤ × ℤ)

/-- `DrawingCanvas.convert_to_image_coords`: screen position to image
coordinates, `int((pos - panOffset) / scale_factor)` componentwise. -/
def convert_to_image_coords (st : CanvasState) (pos : ℤ × ℤ) : ℤ × ℤ :=
  (itrunc (((pos.1 : ℚ) - (st.panOffset.1 : ℚ)) / st.scale_factor),
   itrunc (((pos.2 : ℚ) - (st.panOffset.2 : ℚ)) / st.scale_factor))

/-- Screen position of a marker, as computed in
`DrawingCanvas.draw_sam_markers`:
`int(marker * scale_factor + image_rect.origin)` where the image rectangle
origin is `panOffset`. -/
def marker_screen_pos (st : CanvasState) (m : ℤ × ℤ) : ℤ × ℤ :=
  (itrunc ((m.1 : ℚ) * st.scale_factor + (st.panOffset.1 : ℚ)),
   itrunc ((m.2 : ℚ) * st.scale_factor + (st.panOffset.2 : ℚ)))

/-- `QSize::scaled` with `Qt::KeepAspectRatio`: fit the source aspect ratio
`(srcW, srcH)` inside the box `(boxW, boxH)`. C++ integer division
truncates toward zero (`Int.tdiv`). -/
def qsizeScaledKeepAspect (srcW srcH boxW boxH : ℤ) : ℤ × ℤ :=
  if srcW = 0 ∨ srcH = 0 then (boxW, boxH)
  else
    let rw := Int.tdiv (boxH * srcW) srcH
    if rw ≤ boxW then (rw, boxH) else (boxW, Int.tdiv (boxW * srcH) srcW)

/-- Size of `self.scaled_image` as produced by
`DrawingCanvas.update_scaled_image`: the target box is
`image.size() * scale_factor` (each component `qRound`ed by Qt), then
`QImage.scaled(size, Qt.KeepAspectRatio, ...)` fits the image into that box
and expands degenerate results to at least 1x1. -/
def scaledImageSize (im : Raster) (s : ℚ) : ℤ × ℤ :=
  let sz := qsizeScaledKeepAspect (im.w : ℤ) (im.h : ℤ)
      (qtRound ((im.w : ℚ) * s)) (qtRound ((im.h : ℚ) * s))
  (max sz.1 1, max sz.2 1)

/-- `DrawingCanvas.adjust_pan_offset`: clamp `panOffset` against the widget
and scaled-image sizes. A no-op when no image is loaded (null
`scaled_image`). Python `//` floors (`Int.fdiv`). -/
def adjust_pan_offset (st : CanvasState) : CanvasState :=
  match st.image with
  | none => st
  | some im =>
    let sz := scaledImageSize im st.scale_factor
    let maxX := max 0 (Int.fdiv (st.widgetW - sz.1) 2)
    let maxY := max 0 (Int.fdiv (st.widgetH - sz.2) 2)
    { st with panOffset :=
        (max (min st.panOffset.1 maxX) (-(sz.1 - st.widgetW + maxX)),
         max (min st.panOffset.2 maxY) (-(sz.2 - st.widgetH + maxY))) }

/-- The new scale factor computed at the start of
`DrawingCanvas.wheelEvent`: multiply by 1.1 on scroll up, divide by 1.1
otherwise, then clamp from below by `min_scale_factor`. -/
def zoomedScale (st : CanvasState) (delta : ℤ) : ℚ :=
  let s1 := if 0 < delta then st.scale_factor * (11/10) else st.scale_factor / (11/10)
  if s1 < st.min_scale_factor then st.min_scale_factor else s1

/-- State after the scale update and the `update_scaled_image` call inside
`wheelEvent` (whose `adjust_pan_offset` clamps the pan against the newly
scaled image). -/
def wheelStageA (st : CanvasState) (delta : ℤ) : CanvasState :=
  adjust_pan_offset { st with scale_factor := zoomedScale st delta }

/-- State after `wheelEvent` recomputes the pan offset so that the image
point grabbed before the zoom lands back under the mouse, but before the
final `adjust_pan_offset` clamp. -/
def wheelStageB (st : CanvasState) (delta : ℤ) (mouse : ℤ × ℤ) : CanvasState :=
  let ipb := convert_to_image_coords st mouse
  let stA := wheelStageA st delta
  let nwp : ℤ × ℤ :=
    (itrunc ((ipb.1 : ℚ) * stA.scale_factor + (stA.panOffset.1 : ℚ)),
     itrunc ((ipb.2 : ℚ) * stA.scale_factor + (stA.panOffset.2 : ℚ)))
  { stA with panOffset :=
      (stA.panOffset.1 + (mouse.1 - nwp.1), stA.panOffset.2 + (mouse.2 - nwp.2)) }

/-- `DrawingCanvas.wheelEvent`: no-op on a null image, otherwise zoom
toward the mouse position and clamp the resulting pan offset. -/
def wheelEvent (st : CanvasState) (delta : ℤ) (mouse : ℤ × ℤ) : CanvasState :=
  match st.image with
  | none => st
  | some _ => adjust_pan_offset (wheelStageB st delta mouse)

/-- `DrawingCanvas.auto_fit_image`: fit the image into the widget (minus
padding) and derive `min_scale_factor` from an 80% coverage target. -/
def auto_fit_image (st : CanvasState) : CanvasState :=
  match st.image with
  | none => st
  | some im =>
    if st.widgetW ≤ 0 ∨ st.widgetH ≤ 0 then st
    else
      let cw : ℚ := ((max (st.widgetW - 20) 100 : ℤ) : ℚ)
      let ch : ℚ := ((max (st.widgetH - 20) 100 : ℤ) : ℚ)
      let scale_x := cw / (im.w : ℚ)
      let scale_y := ch / (im.h : ℚ)
      { st with
          scale_factor := min scale_x scale_y,
          min_scale_factor :=
            min (cw * (4/5) / (im.w : ℚ)) (ch * (4/5) / (im.h : ℚ)) }

/-- `DrawingCanvas.center_image`: center the scaled image in the widget. -/
def center_image (st : CanvasState) : CanvasState :=
  match st.image with
  | none => st
  | some im =>
    let sz := scaledImageSize im st.scale_factor
    { st with panOffset :=
        (Int.fdiv (st.widgetW - sz.1) 2, Int.fdiv (st.widgetH - sz.2) 2) }

/-- `DrawingCanvas.resizeEvent`: the widget size has already been updated
by Qt when the handler runs; with an image loaded it re-runs auto-fit,
rescaling (whose pan clamp is `adjust_pan_offset`) and centering. -/
def resizeEvent (st : CanvasState) (newW newH : ℤ) : CanvasState :=
  let st0 := { st with widgetW := newW, widgetH := newH }
  match st0.image with
  | none => st0
  | some _ => center_image (adjust_pan_offset (auto_fit_image st0))

/-- A view-changing operation: a wheel zoom or a widget resize. -/
inductive CanvasOp
  | zoom (delta : ℤ) (mouse : ℤ × ℤ)
  | resize (w h : ℤ)

/-- Apply one view operation. -/
def applyCanvasOp (st : CanvasState) : CanvasOp → CanvasState
  | .zoom d m => wheelEvent st d m
  | .resize w h => resizeEvent st w h

/-- Apply a sequence of view operations left to right. -/
def applyCanvasOps (st : CanvasState) (ops : List CanvasOp) : CanvasState :=
  ops.foldl applyCanvasOp st

/-! ## Mask replacement and crop (`src/ui/drawing_canvas.py`) -/

/-- Events published on the application event bus that matter here. -/
inductive CanvasEvent
  | maskCreated (m : Raster)
  | samMarkerRemoved (markers : List (ℤ × ℤ))

/-- `QImage.setPixelColor`: replace one pixel of a raster. -/
def setPixelColor (r : Raster) (x y : ℕ) (c : Pixel) : Raster :=
  { r with pix := fun a b => if a = x ∧ b = y then c else r.pix a b }

/-- `QColor(Qt.white)`. -/
def whiteColor : Pixel := ⟨255, 255, 255, 255⟩

/-- Body of the inner loop of `DrawingCanvas.crop_by_mask`: whiten the
pixel at column `x` of row `y` when the mask alpha there is zero. -/
def cropPixStep (mk : Raster) (y : ℕ) (acc : Raster) (x : ℕ) : Raster :=
  if (mk.pix x y).a = 0 then setPixelColor acc x y whiteColor else acc

/-- One row of the `crop_by_mask` loop: the inner `for x in range(w)`. -/
def cropRowFold (mk : Raster) (w : ℕ) (acc : Raster) (y : ℕ) : Raster :=
  (List.range w).foldl (cropPixStep mk y) acc

/-- `DrawingCanvas.crop_by_mask`: on a null image or null mask return
nothing and touch no state; otherwise copy the image and whiten, pixel by
pixel in row-major loop order, every position whose mask alpha is zero.
The canvas state is returned alongside to record that the operation does
not mutate it. -/
def crop_by_mask (st : CanvasState) : Option Raster × CanvasState :=
  match st.image, st.mask with
  | some im, some mk =>
      (some ((List.range im.h).foldl (cropRowFold mk im.w) im), st)
  | _, _ => (none, st)

/-- `DrawingCanvas.set_mask`: store the new mask unconditionally, rescale
(`update_scaled_image`, whose pan clamp is `adjust_pan_offset`), and
publish a mask-created event. There is no dimension check. -/
def set_mask (st : CanvasState) (m : Raster) : CanvasState × CanvasEvent :=
  (adjust_pan_offset { st with mask := some m }, .maskCreated m)

/-! ## Marker registry (`src/ui/drawing_canvas.py` and
`MainWindow.on_sam_marker_removed`) -/

/-- Squared Euclidean distance between two integer points. The Python code
compares `sqrt`-distances of integer coordinates against an integer
threshold; over the exact rationals that comparison is equivalent to the
squared comparison guarded by `0 ≤ thr`. -/
def distSq (a b : ℤ × ℤ) : ℤ := (a.1 - b.1) ^ 2 + (a.2 - b.2) ^ 2

/-- One iteration of the scan in `DrawingCanvas.remove_nearest_marker`:
the best candidate is updated when
`distance < min_distance and distance <= threshold`, where `best = none`
models `nearest_index = -1, min_distance = inf`, and the float comparison
`sqrt(d) <= thr` is transcribed exactly as `0 <= thr and d <= thr*thr`. -/
def stepNearest (pos : ℤ × ℤ) (thr : ℤ) (i : ℕ) (best : Option (ℕ × ℤ))
    (m : ℤ × ℤ) : Option (ℕ × ℤ) :=
  match best with
  | none => if 0 ≤ thr ∧ distSq m pos ≤ thr * thr then some (i, distSq m pos) else none
  | some (j, bd) =>
      if distSq m pos < bd ∧ (0 ≤ thr ∧ distSq m pos ≤ thr * thr)
      then some (i, distSq m pos) else some (j, bd)

/-- The scanning loop of `DrawingCanvas.remove_nearest_marker`: walk the
marker list keeping the index and squared distance of the best candidate
so far. -/
def findNearestAux (pos : ℤ × ℤ) (thr : ℤ) :
    List (ℤ × ℤ) → ℕ → Option (ℕ × ℤ) → Option (ℕ × ℤ)
  | [], _, best => best
  | m :: rest, i, best => findNearestAux pos thr rest (i + 1) (stepNearest pos thr i best m)

/-- `DrawingCanvas.remove_nearest_marker`: empty list is a silent no-op;
otherwise remove the marker selected by the scan, if any, and publish the
remaining list (the payload of the `SAM_MARKER_REMOVED` event); when no
marker is within threshold nothing changes and nothing is published. -/
def remove_nearest_marker (markers : List (ℤ × ℤ)) (pos : ℤ × ℤ) (thr : ℤ) :
    List (ℤ × ℤ) × Option (List (ℤ × ℤ)) :=
  if markers = [] then (markers, none)
  else
    match findNearestAux pos thr markers 0 none with
    | some (i, _) => (markers.eraseIdx i, some (markers.eraseIdx i))
    | none => (markers, none)

/-- What the `SAM_MARKER_REMOVED` handler decides to do. -/
inductive RegenAction
  | regen (markers : List (ℤ × ℤ))
  | clearMask
  | noAction
deriving DecidableEq

/-- `MainWindow.on_sam_marker_removed`: with SAM not loaded only an error
is logged; otherwise a nonempty remaining list triggers regeneration with
exactly that list, and an empty one clears the mask. -/
def on_sam_marker_removed (sam_loaded : Bool) (remaining : List (ℤ × ℤ)) : RegenAction :=
  if sam_loaded = false then .noAction
  else if remaining = [] then .clearMask
  else .regen remaining

/-- Marker removal followed by the event-bus handler: the pair of the new
marker list and the resulting regeneration action. -/
def removeNearestPipeline (sam_loaded : Bool) (markers : List (ℤ × ℤ))
    (pos : ℤ × ℤ) (thr : ℤ) : List (ℤ × ℤ) × RegenAction :=
  match remove_nearest_marker markers pos thr with
  | (ms, some rem) => (ms, on_sam_marker_removed sam_loaded rem)
  | (ms, none) => (ms, .noAction)

/-! ## Threshold mask generator (`src/utils/image_processing.py`) -/

/-- A single-channel raster with 16-bit samples (`np.uint16`). -/
structure Gray16 where
  w : ℕ
  h : ℕ
  sample : ℕ → ℕ → ℕ

/-- `cv2.convertScaleAbs(image, alpha=255.0/65535.0)` on one sample:
`saturate_cast<uchar>(round(sample * 255/65535))`. Since `255/65535 =
1/257` and `257` is prime, `sample/257` is never exactly a half-integer, so
round-to-nearest is unambiguous and equals
`floor((2*255*sample + 65535) / (2*65535))`. -/
def convertScaleAbs16 (s : ℕ) : ℕ := min 255 ((510 * s + 65535) / 131070)

/-- `cv2.threshold(img, t, 255, cv2.THRESH_BINARY)` on one 8-bit value:
255 where the value exceeds the threshold, else 0. -/
def threshBinary (v t : ℕ) : ℕ := if t < v then 255 else 0

/-- The fully transparent output pixel, numpy bytes `[0, 0, 0, 0]`. -/
def transparentPixel : Pixel := ⟨0, 0, 0, 0⟩

/-- The opaque highlight output pixel: numpy bytes `[255, 0, 0, 255]`
interpreted through `QImage.Format_ARGB32` on little-endian memory as
blue = 255, green = 0, red = 0, alpha = 255. -/
def thresholdFgPixel : Pixel := ⟨0, 0, 255, 255⟩

/-- `threshold_image` of `src/utils/image_processing.py` after the input
has been loaded and its dtype checked: rescale every 16-bit sample to
8 bits, binarize at the cutoff, and emit a transparent pixel where the
binary value is 255 (white) and the highlight pixel where it is 0. -/
def threshold_image (img : Gray16) (t : ℕ) : Raster :=
  { w := img.w, h := img.h,
    pix := fun x y =>
      let v8 := convertScaleAbs16 (img.sample x y)
      if threshBinary v8 t = 255 then transparentPixel else thresholdFgPixel }

/-! ## Oracle pipeline (`src/services/model_service.py` and
`src/ui/main_window.py`) -/

/-- A boolean segmentation mask as returned by the SAM predictor. -/
structure SamMask where
  w : ℕ
  h : ℕ
  v : ℕ → ℕ → Bool

/-- `ModelService.add_predictor_point`: with no predictor set the call
returns `None` at once; otherwise the outcome of
`predictor.predict` + best-score selection is the black-box `oracle`
value, where `none` stands for a raised exception (caught and converted to
`None`) or any other failure. -/
def add_predictor_point (predictor_ready : Bool) (oracle : Option SamMask) :
    Option SamMask :=
  if predictor_ready then oracle else none

/-- `MainWindow.convert_sam_mask_to_qimage`: `Format_RGBA8888` bytes
`[0, 0, 255, 255]` (blue, fully opaque) where the oracle mask is set,
zeroes elsewhere. -/
def convert_sam_mask_to_qimage (m : SamMask) : Raster :=
  { w := m.w, h := m.h,
    pix := fun x y => if m.v x y then ⟨0, 0, 255, 255⟩ else ⟨0, 0, 0, 0⟩ }

/-- The application-level state around the canvas. -/
structure AppState where
  canvas : CanvasState
  sam_loaded : Bool
  predictor_ready : Bool

/-- `MainWindow.apply_sam_with_markers`: an empty marker list only logs an
error; otherwise the oracle is consulted and the canvas mask is replaced
exactly when the oracle produced a mask. Exceptions are caught and leave
the state as it was. -/
def apply_sam_with_markers (st : AppState) (markers : List (ℤ × ℤ))
    (oracle : Option SamMask) : AppState :=
  if markers = [] then st
  else
    match add_predictor_point st.predictor_ready oracle with
    | none => st
    | some m =>
        { st with canvas := (set_mask st.canvas (convert_sam_mask_to_qimage m)).1 }

/-! ## Batch crop (`src/services/image_manager.py`) -/

/-- One image of a folder as seen by
`ImageManager.crop_all_images_by_masks`: whether a mask exists for it,
whether a previously produced cropped output exists, and whether
`crop_image_by_mask` would succeed on it (loading, masking and writing the
file; `false` also covers an exception raised inside the per-item `try`,
which the code logs and skips). -/
structure CropItem where
  id : ℕ
  hasMask : Bool
  croppedExists : Bool
  cropOk : Bool
deriving DecidableEq

/-- The body of the inner loop of `crop_all_images_by_masks`, threading
the counter of written images and the list of written item ids. -/
def cropFolderStep (overwrite : Bool) (acc : ℕ × List ℕ) (it : CropItem) :
    ℕ × List ℕ :=
  if it.hasMask then
    if overwrite = false ∧ it.croppedExists then acc
    else if it.cropOk then (acc.1 + 1, acc.2 ++ [it.id]) else acc
  else acc

/-- The observable outcome of one call to
`ImageManager.crop_all_images_by_masks`: the Python return value of the
method (it has no `return` statement, so it is always `None`, modelled as
`none`), the count in the final log line
`"Cropped {total_cropped} images"`, and the ids of the items whose cropped
output was written to disk. -/
structure CropBatchResult where
  retVal : Option ℕ
  loggedCount : ℕ
  written : List ℕ
deriving DecidableEq

/-- `ImageManager.crop_all_images_by_masks`: walk every folder and every
image in it, skipping as the code does; the `total_cropped` counter is
only logged at the end, and the method falls off the end, returning
`None`. -/
def crop_all_images_by_masks (folders : List (List CropItem)) (overwrite : Bool) :
    CropBatchResult :=
  let acc := folders.foldl
    (fun acc folder => folder.foldl (cropFolderStep overwrite) acc) (0, [])
  { retVal := none, loggedCount := acc.1, written := acc.2 }

/-- The specification-side write predicate for one batch item: it has a
mask, it is not skipped by the overwrite rule, and its crop succeeds. -/
def shouldWrite (overwrite : Bool) (it : CropItem) : Bool :=
  it.hasMask && (overwrite || !it.croppedExists) && it.cropOk

/-! ## Field-preservation lemmas for the view operations -/

lemma adjust_pan_offset_image (st : CanvasState) :
    (adjust_pan_offset st).image = st.image := by
  cases h : st.image <;> simp [adjust_pan_offset, h]

lemma adjust_pan_offset_mask (st : CanvasState) :
    (adjust_pan_offset st).mask = st.mask := by
  cases h : st.image <;> simp [adjust_pan_offset, h]

lemma adjust_pan_offset_scale (st : CanvasState) :
    (adjust_pan_offset st).scale_factor = st.scale_factor := by
  cases h : st.image <;> simp [adjust_pan_offset, h]

lemma adjust_pan_offset_min_scale (st : CanvasState) :
    (adjust_pan_offset st).min_scale_factor = st.min_scale_factor := by
  cases h : st.image <;> simp [adjust_pan_offset, h]

lemma center_image_scale (st : CanvasState) :
    (center_image st).scale_factor = st.scale_factor := by
  cases h : st.image <;> simp [center_image, h]

lemma center_image_min_scale (st : CanvasState) :
    (center_image st).min_scale_factor = st.min_scale_factor := by
  cases h : st.image <;> simp [center_image, h]

lemma wheelStageA_scale (st : CanvasState) (delta : ℤ) :
    (wheelStageA st delta).scale_factor = zoomedScale st delta := by
  simp [wheelStageA, adjust_pan_offset_scale]

lemma wheelStageA_min_scale (st : CanvasState) (delta : ℤ) :
    (wheelStageA st delta).min_scale_factor = st.min_scale_factor := by
  simp [wheelStageA, adjust_pan_offset_min_scale]

lemma wheelStageB_scale (st : CanvasState) (delta : ℤ) (mouse : ℤ × ℤ) :
    (wheelStageB st delta mouse).scale_factor = zoomedScale st delta := by
  simp [wheelStageB, wheelStageA_scale]

lemma wheelStageB_min_scale (st : CanvasState) (delta : ℤ) (mouse : ℤ × ℤ) :
    (wheelStageB st delta mouse).min_scale_factor = st.min_scale_factor := by
  simp [wheelStageB, wheelStageA_min_scale]

lemma adjust_pan_offset_widgetW (st : CanvasState) :
    (adjust_pan_offset st).widgetW = st.widgetW := by
  cases h : st.image <;> simp [adjust_pan_offset, h]

lemma adjust_pan_offset_widgetH (st : CanvasState) :
    (adjust_pan_offset st).widgetH = st.widgetH := by
  cases h : st.image <;> simp [adjust_pan_offset, h]

lemma wheelStageB_widgetW (st : CanvasState) (delta : ℤ) (mouse : ℤ × ℤ) :
    (wheelStageB st delta mouse).widgetW = st.widgetW := by
  simp [wheelStageB, wheelStageA, adjust_pan_offset_widgetW]

lemma wheelStageB_widgetH (st : CanvasState) (delta : ℤ) (mouse : ℤ × ℤ) :
    (wheelStageB st delta mouse).widgetH = st.widgetH := by
  simp [wheelStageB, wheelStageA, adjust_pan_offset_widgetH]

/-- Explicit form of the pan clamp when an image is loaded. -/
lemma adjust_pan_offset_pan (st : CanvasState) (im : Raster)
    (him : st.image = some im) :
    (adjust_pan_offset st).panOffset =
      (max (min st.panOffset.1
            (max 0 (Int.fdiv (st.widgetW - (scaledImageSize im st.scale_factor).1) 2)))
          (-((scaledImageSize im st.scale_factor).1 - st.widgetW +
            max 0 (Int.fdiv (st.widgetW - (scaledImageSize im st.scale_factor).1) 2))),
       max (min st.panOffset.2
            (max 0 (Int.fdiv (st.widgetH - (scaledImageSize im st.scale_factor).2) 2)))
          (-((scaledImageSize im st.scale_factor).2 - st.widgetH +
            max 0 (Int.fdiv (st.widgetH - (scaledImageSize im st.scale_factor).2) 2)))) := by
  simp [adjust_pan_offset, him]

lemma wheelEvent_scale (st : CanvasState) (delta : ℤ) (mouse : ℤ × ℤ) (im : Raster)
    (him : st.image = some im) :
    (wheelEvent st delta mouse).scale_factor = zoomedScale st delta := by
  simp [wheelEvent, him, adjust_pan_offset_scale, wheelStageB_scale]

lemma wheelEvent_min_scale (st : CanvasState) (delta : ℤ) (mouse : ℤ × ℤ) (im : Raster)
    (him : st.image = some im) :
    (wheelEvent st delta mouse).min_scale_factor = st.min_scale_factor := by
  simp [wheelEvent, him, adjust_pan_offset_min_scale, wheelStageB_min_scale]

/-- The clamped scale produced by a wheel zoom never drops below the
current minimum. -/
lemma min_scale_le_zoomedScale (st : CanvasState) (delta : ℤ) :
    st.min_scale_factor ≤ zoomedScale st delta := by
  by_cases hlt : (if 0 < delta then st.scale_factor * (11/10)
      else st.scale_factor / (11/10)) < st.min_scale_factor
  · simp [zoomedScale, hlt]
  · simp only [zoomedScale, if_neg hlt]
    exact le_of_not_lt hlt

/-- Division of rationals by a nonnegative denominator is monotone in the
numerator (trivially so for a zero denominator). -/
lemma div_le_div_nonneg_denom (a b c : ℚ) (hc : 0 ≤ c) (h : a ≤ b) :
    a / c ≤ b / c := by
  rcases eq_or_lt_of_le hc with hc0 | hcpos
  · rw [← hc0]
    simp
  · exact (div_le_div_iff_of_pos_right hcpos).mpr h

/-- `auto_fit_image` establishes the scale floor: the recomputed minimum
scale is the 80% coverage scale, which is at most the fit scale it also
installs. -/
lemma auto_fit_image_floor (st : CanvasState)
    (h : st.min_scale_factor ≤ st.scale_factor) :
    (auto_fit_image st).min_scale_factor ≤ (auto_fit_image st).scale_factor := by
  unfold auto_fit_image
  cases him : st.image with
  | none => exact h
  | some im =>
    dsimp only
    split
    · exact h
    · dsimp only
      apply min_le_min
      · apply div_le_div_nonneg_denom _ _ _ (by positivity)
        have hcw : (100 : ℚ) ≤ ((max (st.widgetW - 20) 100 : ℤ) : ℚ) := by
          have : (100 : ℤ) ≤ max (st.widgetW - 20) 100 := le_max_right _ _
          exact_mod_cast this
        nlinarith
      · apply div_le_div_nonneg_denom _ _ _ (by positivity)
        have hch : (100 : ℚ) ≤ ((max (st.widgetH - 20) 100 : ℤ) : ℚ) := by
          have : (100 : ℤ) ≤ max (st.widgetH - 20) 100 := le_max_right _ _
          exact_mod_cast this
        nlinarith

/-- Every single view operation re-establishes the scale floor. -/
lemma applyCanvasOp_floor (st : CanvasState) (op : CanvasOp)
    (h : st.min_scale_factor ≤ st.scale_factor) :
    (applyCanvasOp st op).min_scale_factor ≤ (applyCanvasOp st op).scale_factor := by
  cases op with
  | zoom d m =>
    show (wheelEvent st d m).min_scale_factor ≤ (wheelEvent st d m).scale_factor
    cases him : st.image with
    | none => simpa [wheelEvent, him] using h
    | some im =>
      rw [wheelEvent_scale st d m im him, wheelEvent_min_scale st d m im him]
      exact min_scale_le_zoomedScale st d
  | resize w hgt =>
    show (resizeEvent st w hgt).min_scale_factor ≤ (resizeEvent st w hgt).scale_factor
    cases him : st.image with
    | none => simpa [resizeEvent, him] using h
    | some im =>
      have hred : resizeEvent st w hgt =
          center_image (adjust_pan_offset (auto_fit_image
            { st with widgetW := w, widgetH := hgt })) := by
        simp [resizeEvent, him]
      rw [hred, center_image_scale, center_image_min_scale,
          adjust_pan_offset_scale, adjust_pan_offset_min_scale]
      exact auto_fit_image_floor _ h

lemma wheelStageA_image (st : CanvasState) (delta : ℤ) :
    (wheelStageA st delta).image = st.image := by
  simp [wheelStageA, adjust_pan_offset_image]

lemma wheelStageB_image (st : CanvasState) (delta : ℤ) (mouse : ℤ × ℤ) :
    (wheelStageB st delta mouse).image = st.image := by
  simp [wheelStageB, wheelStageA_image]

lemma wheelEvent_image (st : CanvasState) (delta : ℤ) (mouse : ℤ × ℤ) :
    (wheelEvent st delta mouse).image = st.image := by
  cases him : st.image with
  | none => simp [wheelEvent, him]
  | some im => simp [wheelEvent, him, adjust_pan_offset_image, wheelStageB_image]

lemma auto_fit_image_image (st : CanvasState) :
    (auto_fit_image st).image = st.image := by
  cases h : st.image with
  | none => simp [auto_fit_image, h]
  | some im =>
    simp only [auto_fit_image, h]
    split <;> simp [h]

lemma center_image_image (st : CanvasState) :
    (center_image st).image = st.image := by
  cases h : st.image <;> simp [center_image, h]

lemma resizeEvent_image (st : CanvasState) (w hgt : ℤ) :
    (resizeEvent st w hgt).image = st.image := by
  cases him : st.image with
  | none => simp [resizeEvent, him]
  | some im =>
    simp [resizeEvent, him, center_image_image, adjust_pan_offset_image,
      auto_fit_image_image]

lemma applyCanvasOp_image (st : CanvasState) (op : CanvasOp) :
    (applyCanvasOp st op).image = st.image := by
  cases op with
  | zoom d m => exact wheelEvent_image st d m
  | resize w hgt => exact resizeEvent_image st w hgt

/-- C9: starting from a state with a loaded image whose view state
satisfies the scale floor, every sequence of wheel-zoom and resize
(auto-fit) operations leaves `scale_factor >= min_scale_factor`; since the
theorem quantifies over all operation lists, it covers the state after
each prefix of any such sequence. -/
theorem scale_floor_invariant (st : CanvasState) (im : Raster) (ops : List CanvasOp)
    (him : st.image = some im)
    (h : st.min_scale_factor ≤ st.scale_factor) :
    (applyCanvasOps st ops).min_scale_factor ≤ (applyCanvasOps st ops).scale_factor := by
  induction ops generalizing st with
  | nil => exact h
  | cons op rest ih =>
    show (List.foldl applyCanvasOp st (op :: rest)).min_scale_factor ≤
      (List.foldl applyCanvasOp st (op :: rest)).scale_factor
    rw [List.foldl_cons]
    exact ih (applyCanvasOp st op)
      (by rw [applyCanvasOp_image]; exact him)
      (applyCanvasOp_floor st op h)

/-- A 200x200 test raster. -/
def rasterSmall : Raster := ⟨200, 200, fun _ _ => ⟨0, 0, 0, 0⟩⟩

/-- Canvas state used to witness the scale floor invariant. -/
def stFloorW : CanvasState :=
  ⟨some rasterSmall, none, 100, 100, 1, 1/2, (-50, -50), []⟩

theorem scale_floor_invariant_witness :
    (applyCanvasOps stFloorW
      [CanvasOp.zoom 120 (10, 10), CanvasOp.resize 300 300,
       CanvasOp.zoom (-120) (5, 5)]).min_scale_factor ≤
    (applyCanvasOps stFloorW
      [CanvasOp.zoom 120 (10, 10), CanvasOp.resize 300 300,
       CanvasOp.zoom (-120) (5, 5)]).scale_factor :=
  scale_floor_invariant stFloorW rasterSmall _ rfl (by norm_num [stFloorW])

/-- A 10000x10000 test raster. -/
def rasterBig : Raster := ⟨10000, 10000, fun _ _ => ⟨0, 0, 0, 0⟩⟩

/-- Canvas state refuting the unconditional one-pixel zoom-to-cursor
tolerance: scale 11/100, about to be zoomed out to 1/10. -/
def stZoomCx : CanvasState :=
  ⟨some rasterBig, none, 500, 500, 11/100, 1/100, (0, 0), []⟩

/-- C1 counterexample: at scale 11/100 with the mouse at (50,50), a zoom
out moves the image point computed for the anchor from 454 to 500 — a 46
pixel drift, far outside the claimed one-pixel tolerance. -/
theorem wheel_zoom_to_cursor_cex :
    ¬(|(convert_to_image_coords (wheelEvent stZoomCx (-120) (50, 50)) (50, 50)).1
        - (convert_to_image_coords stZoomCx (50, 50)).1| ≤ 1) := by
  have hz : zoomedScale stZoomCx (-120) = 1/10 := by
    norm_num [zoomedScale, stZoomCx]
  have hbefore : convert_to_image_coords stZoomCx (50, 50) = (454, 454) := by
    simp only [convert_to_image_coords, stZoomCx]
    norm_num [itrunc]
  have hsize : scaledImageSize rasterBig (1/10) = (1000, 1000) := by
    simp only [scaledImageSize, qsizeScaledKeepAspect, rasterBig]
    norm_num [qtRound]
    decide
  have hApan : (wheelStageA stZoomCx (-120)).panOffset = (0, 0) := by
    rw [wheelStageA, adjust_pan_offset_pan _ rasterBig rfl]
    dsimp only
    rw [hz, hsize]
    simp only [stZoomCx]
    decide
  have hBpan : (wheelStageB stZoomCx (-120) (50, 50)).panOffset = (5, 5) := by
    simp only [wheelStageB, hbefore, hApan, wheelStageA_scale, hz]
    norm_num [itrunc]
  have hwe : wheelEvent stZoomCx (-120) (50, 50)
      = adjust_pan_offset (wheelStageB stZoomCx (-120) (50, 50)) := rfl
  have him : (wheelStageB stZoomCx (-120) (50, 50)).image = some rasterBig := by
    rw [wheelStageB_image]
    rfl
  have hfinal : (wheelEvent stZoomCx (-120) (50, 50)).panOffset = (0, 0) := by
    rw [hwe, adjust_pan_offset_pan _ rasterBig him, wheelStageB_scale, hz, hsize,
      hBpan, wheelStageB_widgetW, wheelStageB_widgetH]
    simp only [stZoomCx]
    decide
  have hsc : (wheelEvent stZoomCx (-120) (50, 50)).scale_factor = 1/10 := by
    rw [wheelEvent_scale stZoomCx (-120) (50, 50) rasterBig rfl, hz]
  have hafter : (convert_to_image_coords (wheelEvent stZoomCx (-120) (50, 50)) (50, 50)).1
      = 500 := by
    simp only [convert_to_image_coords, hsc, hfinal]
    norm_num [itrunc]
  rw [hafter, hbefore]
  decide

/-- C1 (amended): a wheel zoom multiplies `scale_factor` by 1.1 (positive
delta) or divides it by 1.1, clamping at `min_scale_factor`; and provided
the resulting scale is at least 1 and the two pan-offset clamps inside the
event are inactive, the image-space point computed for the anchor after
the zoom is within one pixel per coordinate of the one computed before. -/
theorem wheel_zoom_to_cursor (st : CanvasState) (im : Raster) (delta : ℤ)
    (mouse : ℤ × ℤ)
    (him : st.image = some im)
    (hs : 1 ≤ zoomedScale st delta)
    (hA : (wheelStageA st delta).panOffset = st.panOffset)
    (hB : (adjust_pan_offset (wheelStageB st delta mouse)).panOffset
        = (wheelStageB st delta mouse).panOffset) :
    (wheelEvent st delta mouse).scale_factor = zoomedScale st delta ∧
    |(convert_to_image_coords (wheelEvent st delta mouse) mouse).1
        - (convert_to_image_coords st mouse).1| ≤ 1 ∧
    |(convert_to_image_coords (wheelEvent st delta mouse) mouse).2
        - (convert_to_image_coords st mouse).2| ≤ 1 := by
  have hsc : (wheelEvent st delta mouse).scale_factor = zoomedScale st delta :=
    wheelEvent_scale st delta mouse im him
  have hwe : wheelEvent st delta mouse = adjust_pan_offset (wheelStageB st delta mouse) := by
    simp [wheelEvent, him]
  have hpan : (wheelEvent st delta mouse).panOffset = (wheelStageB st delta mouse).panOffset := by
    rw [hwe]
    exact hB
  have hBpan : (wheelStageB st delta mouse).panOffset =
      (st.panOffset.1 + (mouse.1 - itrunc (((convert_to_image_coords st mouse).1 : ℚ)
          * zoomedScale st delta + (st.panOffset.1 : ℚ))),
       st.panOffset.2 + (mouse.2 - itrunc (((convert_to_image_coords st mouse).2 : ℚ)
          * zoomedScale st delta + (st.panOffset.2 : ℚ)))) := by
    simp only [wheelStageB, hA, wheelStageA_scale]
  refine ⟨hsc, ?_, ?_⟩
  · have hcoord : (convert_to_image_coords (wheelEvent st delta mouse) mouse).1
        = itrunc ((((itrunc (((convert_to_image_coords st mouse).1 : ℚ)
            * zoomedScale st delta + (st.panOffset.1 : ℚ))) : ℚ) - (st.panOffset.1 : ℚ))
          / zoomedScale st delta) := by
      simp only [convert_to_image_coords, hsc, hpan, hBpan]
      congr 1
      push_cast
      ring
    rw [hcoord]
    exact itrunc_zoom_bound (zoomedScale st delta) hs
      (convert_to_image_coords st mouse).1 st.panOffset.1
  · have hcoord : (convert_to_image_coords (wheelEvent st delta mouse) mouse).2
        = itrunc ((((itrunc (((convert_to_image_coords st mouse).2 : ℚ)
            * zoomedScale st delta + (st.panOffset.2 : ℚ))) : ℚ) - (st.panOffset.2 : ℚ))
          / zoomedScale st delta) := by
      simp only [convert_to_image_coords, hsc, hpan, hBpan]
      congr 1
      push_cast
      ring
    rw [hcoord]
    exact itrunc_zoom_bound (zoomedScale st delta) hs
      (convert_to_image_coords st mouse).2 st.panOffset.2

/-- Canvas state used to witness the amended zoom-to-cursor bound. -/
def stZoomW : CanvasState :=
  ⟨some rasterSmall, none, 100, 100, 1, 1/2, (-50, -50), []⟩

theorem wheel_zoom_to_cursor_witness :
    (wheelEvent stZoomW 120 (30, 30)).scale_factor = zoomedScale stZoomW 120 ∧
    |(convert_to_image_coords (wheelEvent stZoomW 120 (30, 30)) (30, 30)).1
        - (convert_to_image_coords stZoomW (30, 30)).1| ≤ 1 ∧
    |(convert_to_image_coords (wheelEvent stZoomW 120 (30, 30)) (30, 30)).2
        - (convert_to_image_coords stZoomW (30, 30)).2| ≤ 1 := by
  have hz : zoomedScale stZoomW 120 = 11/10 := by
    norm_num [zoomedScale, stZoomW]
  have hbefore : convert_to_image_coords stZoomW (30, 30) = (80, 80) := by
    simp only [convert_to_image_coords, stZoomW]
    norm_num [itrunc]
  have hsize : scaledImageSize rasterSmall (11/10) = (220, 220) := by
    simp only [scaledImageSize, qsizeScaledKeepAspect, rasterSmall]
    norm_num [qtRound]
    decide
  have hA : (wheelStageA stZoomW 120).panOffset = stZoomW.panOffset := by
    rw [wheelStageA, adjust_pan_offset_pan _ rasterSmall rfl]
    dsimp only
    rw [hz, hsize]
    simp only [stZoomW]
    decide
  have hBpan : (wheelStageB stZoomW 120 (30, 30)).panOffset = (-58, -58) := by
    simp only [wheelStageB, hbefore, hA, wheelStageA_scale, hz]
    norm_num [itrunc, stZoomW]
  have him : (wheelStageB stZoomW 120 (30, 30)).image = some rasterSmall := by
    rw [wheelStageB_image]
    rfl
  have hB : (adjust_pan_offset (wheelStageB stZoomW 120 (30, 30))).panOffset
      = (wheelStageB stZoomW 120 (30, 30)).panOffset := by
    rw [adjust_pan_offset_pan _ rasterSmall him, wheelStageB_scale, hz, hsize,
      hBpan, wheelStageB_widgetW, wheelStageB_widgetH]
    simp only [stZoomW]
    decide
  exact wheel_zoom_to_cursor stZoomW rasterSmall 120 (30, 30) rfl
    (by rw [hz]; norm_num) hA hB

/-- View state refuting the unconditional coordinate round trip: scale
1/10, no pan. -/
def stRoundCx : CanvasState := ⟨none, none, 500, 500, 1/10, 1/100, (0, 0), []⟩

/-- C8 counterexample: at scale 1/10 the image point (37,37) maps to
screen (3,3) and back to image (30,30) — seven pixels away, so
`toImage(toScreen(p)) == p` fails, well beyond one pixel. -/
theorem coord_round_trip_cex :
    ¬(|(convert_to_image_coords stRoundCx (marker_screen_pos stRoundCx (37, 37))).1
        - 37| ≤ 1) := by
  have h1 : marker_screen_pos stRoundCx (37, 37) = (3, 3) := by
    simp only [marker_screen_pos, stRoundCx]
    norm_num [itrunc]
  have h2 : convert_to_image_coords stRoundCx (3, 3) = (30, 30) := by
    simp only [convert_to_image_coords, stRoundCx]
    norm_num [itrunc]
  rw [h1, h2]
  decide

/-- C8 (amended): for scale factors at least 1, `toImage(toScreen(p))` is
within one pixel of `p` per coordinate; for positive scale factors at most
1, `toScreen(toImage(q))` is within one pixel of `q` per coordinate. -/
theorem coord_round_trip (st : CanvasState) :
    (1 ≤ st.scale_factor → ∀ p : ℤ × ℤ,
      |(convert_to_image_coords st (marker_screen_pos st p)).1 - p.1| ≤ 1 ∧
      |(convert_to_image_coords st (marker_screen_pos st p)).2 - p.2| ≤ 1) ∧
    (0 < st.scale_factor → st.scale_factor ≤ 1 → ∀ q : ℤ × ℤ,
      |(marker_screen_pos st (convert_to_image_coords st q)).1 - q.1| ≤ 1 ∧
      |(marker_screen_pos st (convert_to_image_coords st q)).2 - q.2| ≤ 1) := by
  constructor
  · intro hs p
    constructor
    · simpa [convert_to_image_coords, marker_screen_pos] using
        itrunc_zoom_bound st.scale_factor hs p.1 st.panOffset.1
    · simpa [convert_to_image_coords, marker_screen_pos] using
        itrunc_zoom_bound st.scale_factor hs p.2 st.panOffset.2
  · intro h0 h1 q
    constructor
    · simpa [convert_to_image_coords, marker_screen_pos] using
        itrunc_screen_bound st.scale_factor h0 h1 q.1 st.panOffset.1
    · simpa [convert_to_image_coords, marker_screen_pos] using
        itrunc_screen_bound st.scale_factor h0 h1 q.2 st.panOffset.2

/-- View state at scale 2 witnessing the first round-trip bound. -/
def stRoundW1 : CanvasState := ⟨none, none, 500, 500, 2, 1, (3, 4), []⟩

/-- View state at scale 1/2 witnessing the second round-trip bound. -/
def stRoundW2 : CanvasState := ⟨none, none, 500, 500, 1/2, 1/100, (3, 4), []⟩

theorem coord_round_trip_witness :
    (|(convert_to_image_coords stRoundW1 (marker_screen_pos stRoundW1 (5, 6))).1 - 5| ≤ 1 ∧
     |(convert_to_image_coords stRoundW1 (marker_screen_pos stRoundW1 (5, 6))).2 - 6| ≤ 1) ∧
    (|(marker_screen_pos stRoundW2 (convert_to_image_coords stRoundW2 (7, 9))).1 - 7| ≤ 1 ∧
     |(marker_screen_pos stRoundW2 (convert_to_image_coords stRoundW2 (7, 9))).2 - 9| ≤ 1) :=
  ⟨(coord_round_trip stRoundW1).1 (by norm_num [stRoundW1]) (5, 6),
   (coord_round_trip stRoundW2).2 (by norm_num [stRoundW2]) (by norm_num [stRoundW2]) (7, 9)⟩

/-- C10: if the current image or the current mask is null, the single-image
crop operation returns no result and leaves the entire canvas state
unchanged. -/
theorem crop_by_mask_null_noop (st : CanvasState)
    (h : st.image = none ∨ st.mask = none) :
    crop_by_mask st = (none, st) := by
  rcases h with h | h
  · simp [crop_by_mask, h]
  · cases him : st.image <;> simp [crop_by_mask, h, him]

/-- Canvas state with no image and no mask loaded. -/
def stNull : CanvasState := ⟨none, none, 500, 500, 1, 1, (0, 0), []⟩

theorem crop_by_mask_null_noop_witness : crop_by_mask stNull = (none, stNull) :=
  crop_by_mask_null_noop stNull (Or.inl rfl)

/-- A 2x2 test raster. -/
def rasterTwo : Raster := ⟨2, 2, fun _ _ => ⟨0, 0, 0, 0⟩⟩

/-- A 3x3 test raster. -/
def rasterThree : Raster := ⟨3, 3, fun _ _ => ⟨0, 0, 0, 0⟩⟩

/-- Canvas state with a 2x2 image and 2x2 mask loaded. -/
def stMaskCx : CanvasState :=
  ⟨some rasterTwo, some rasterTwo, 500, 500, 1, 1, (0, 0), []⟩

/-- C5 counterexample: replacing the mask of a canvas holding a 2x2 image
with a 3x3 mask is not rejected — the stored mask becomes the 3x3 raster
even though its dimensions differ from the image dimensions. -/
theorem set_mask_dim_guard_cex :
    (set_mask stMaskCx rasterThree).1.mask = some rasterThree ∧
    (rasterThree.w, rasterThree.h) ≠ (rasterTwo.w, rasterTwo.h) := by
  constructor
  · simp [set_mask, adjust_pan_offset_mask]
  · decide

/-- C5 (amended): `set_mask` performs no dimension validation at all — for
every canvas state and every replacement mask it unconditionally
overwrites the stored mask and publishes a mask-created event; producers
alone are responsible for matching the image dimensions. -/
theorem set_mask_no_dimension_guard (st : CanvasState) (m : Raster) :
    (set_mask st m).1.mask = some m ∧
    (set_mask st m).2 = CanvasEvent.maskCreated m := by
  constructor
  · simp [set_mask, adjust_pan_offset_mask]
  · rfl

/-- C6: whenever the oracle call fails (no predictor set, or a prediction
failure or exception, all of which surface as a `none` result of
`add_predictor_point`), applying SAM leaves the stored canvas mask exactly
as it was. -/
theorem oracle_failure_preserves_mask (st : AppState) (markers : List (ℤ × ℤ))
    (oracle : Option SamMask)
    (h : add_predictor_point st.predictor_ready oracle = none) :
    (apply_sam_with_markers st markers oracle).canvas.mask = st.canvas.mask := by
  unfold apply_sam_with_markers
  by_cases hm : markers = []
  · simp [hm]
  · simp [hm, h]

theorem oracle_failure_preserves_mask_witness :
    (apply_sam_with_markers ⟨stMaskCx, true, false⟩ [(5, 5)] none).canvas.mask
      = (⟨stMaskCx, true, false⟩ : AppState).canvas.mask :=
  oracle_failure_preserves_mask ⟨stMaskCx, true, false⟩ [(5, 5)] none rfl

/-- With a 16-bit sample, the saturation in `convertScaleAbs` is inactive
and the rescaled value is exactly the specification formula
`round(sample * 255/65535)`. -/
lemma convertScaleAbs16_eq_round (s : ℕ) (hs : s ≤ 65535) :
    (convertScaleAbs16 s : ℤ) = ⌊(s : ℚ) * 255 / 65535 + 1/2⌋ := by
  have hle : (510 * s + 65535) / 131070 ≤ 255 := by omega
  have hmin : convertScaleAbs16 s = (510 * s + 65535) / 131070 := by
    unfold convertScaleAbs16
    omega
  rw [hmin]
  have harg : (s : ℚ) * 255 / 65535 + 1/2
      = ((510 * s + 65535 : ℕ) : ℚ) / ((131070 : ℕ) : ℚ) := by
    push_cast
    ring
  rw [harg]
  symm
  rw [Int.floor_eq_iff]
  constructor
  · rw [le_div_iff₀ (by norm_num : (0:ℚ) < ((131070 : ℕ) : ℚ))]
    have h1 : (510 * s + 65535) / 131070 * 131070 ≤ 510 * s + 65535 :=
      Nat.div_mul_le_self _ _
    exact_mod_cast h1
  · rw [div_lt_iff₀ (by norm_num : (0:ℚ) < ((131070 : ℕ) : ℚ))]
    have h2 : 510 * s + 65535 < ((510 * s + 65535) / 131070 + 1) * 131070 := by
      omega
    exact_mod_cast h2

/-- C4: for every single-channel 16-bit image and threshold, the generated
mask has the input dimensions, and each pixel is fully transparent exactly
when the 8-bit rescale `round(sample * 255/65535)` strictly exceeds the
threshold, and the fixed opaque highlight pixel (alpha 255) otherwise; in
particular an all-zero image yields an all-foreground mask. -/
theorem threshold_image_contract (img : Gray16) (t : ℕ)
    (hb : ∀ x y, img.sample x y ≤ 65535) :
    (threshold_image img t).w = img.w ∧ (threshold_image img t).h = img.h ∧
    ∀ x y, (threshold_image img t).pix x y =
      if (t : ℤ) < ⌊(img.sample x y : ℚ) * 255 / 65535 + 1/2⌋
      then transparentPixel else thresholdFgPixel := by
  refine ⟨rfl, rfl, fun x y => ?_⟩
  have h := convertScaleAbs16_eq_round (img.sample x y) (hb x y)
  have hpix : (threshold_image img t).pix x y
      = if threshBinary (convertScaleAbs16 (img.sample x y)) t = 255
        then transparentPixel else thresholdFgPixel := rfl
  rw [hpix, ← h]
  by_cases hlt : t < convertScaleAbs16 (img.sample x y)
  · simp [threshBinary, hlt]
  · simp [threshBinary, hlt]

/-- The all-zero 100x100 16-bit image of the specification scenario. -/
def grayZero : Gray16 := ⟨100, 100, fun _ _ => 0⟩

theorem threshold_image_contract_witness :
    (threshold_image grayZero 127).pix 3 5 = thresholdFgPixel := by
  have h := (threshold_image_contract grayZero 127 (fun _ _ => by norm_num [grayZero])).2.2 3 5
  rw [h]
  norm_num [grayZero]

/-- The inner-loop body writes exactly when the item satisfies the write
predicate. -/
lemma cropFolderStep_eq (ow : Bool) (acc : ℕ × List ℕ) (it : CropItem) :
    cropFolderStep ow acc it =
      if shouldWrite ow it then (acc.1 + 1, acc.2 ++ [it.id]) else acc := by
  unfold cropFolderStep shouldWrite
  cases hm : it.hasMask <;> cases he : it.croppedExists <;>
    cases hc : it.cropOk <;> cases ow <;> simp

/-- Folding the per-item body over one folder counts and records exactly
the items satisfying the write predicate. -/
lemma foldl_cropFolderStep (ow : Bool) (l : List CropItem) (c : ℕ) (w : List ℕ) :
    l.foldl (cropFolderStep ow) (c, w)
      = (c + l.countP (shouldWrite ow),
         w ++ (l.filter (shouldWrite ow)).map CropItem.id) := by
  induction l generalizing c w with
  | nil => simp
  | cons it rest ih =>
    rw [List.foldl_cons, cropFolderStep_eq]
    by_cases h : shouldWrite ow it
    · rw [if_pos h, ih]
      simp [List.countP_cons, List.filter_cons, h]
      omega
    · rw [if_neg h, ih]
      simp only [List.countP_cons, List.filter_cons]
      simp [h]

/-- Accumulated form of the batch crop over all folders. -/
lemma foldl_folders_cropStep (ow : Bool) (folders : List (List CropItem))
    (c : ℕ) (w : List ℕ) :
    folders.foldl (fun acc folder => folder.foldl (cropFolderStep ow) acc) (c, w)
      = (c + (folders.flatten).countP (shouldWrite ow),
         w ++ ((folders.flatten).filter (shouldWrite ow)).map CropItem.id) := by
  induction folders generalizing c w with
  | nil => simp
  | cons f rest ih =>
    rw [List.foldl_cons, foldl_cropFolderStep, ih]
    simp [List.countP_append, List.filter_append, add_assoc]

/-- C7 counterexample: in the specification scenario — `overwrite = false`,
a cropped output already existing for item A (id 0) and none for item B
(id 1) — exactly one item, B, is written, yet the operation does not
return the count 1: the Python method returns `None`. -/
theorem crop_all_images_by_masks_cex :
    (crop_all_images_by_masks
        [[⟨0, true, true, true⟩, ⟨1, true, false, true⟩]] false).written = [1] ∧
    (crop_all_images_by_masks
        [[⟨0, true, true, true⟩, ⟨1, true, false, true⟩]] false).retVal ≠ some 1 := by
  decide

/-- C7 (amended): an item is skipped when a previously produced cropped
output exists and `overwrite` is false, otherwise its crop is computed and
persisted; a per-item failure is logged and skipped without aborting the
remaining batch. The count of images actually (re)written is not returned
— the method returns `None` — but logged: the logged count equals exactly
the number of items with a mask, not skipped by the overwrite rule, whose
crop succeeds, and exactly those items are written, in order; in
particular, in the scenario with an existing output for A and none for B
under `overwrite = false`, only B is written and the logged count is 1. -/
theorem crop_all_images_by_masks_contract (folders : List (List CropItem)) (ow : Bool) :
    (crop_all_images_by_masks folders ow).retVal = none ∧
    (crop_all_images_by_masks folders ow).loggedCount
      = (folders.flatten).countP (shouldWrite ow) ∧
    (crop_all_images_by_masks folders ow).written
      = ((folders.flatten).filter (shouldWrite ow)).map CropItem.id ∧
    (crop_all_images_by_masks
        [[⟨0, true, true, true⟩, ⟨1, true, false, true⟩]] false).loggedCount = 1 ∧
    (crop_all_images_by_masks
        [[⟨0, true, true, true⟩, ⟨1, true, false, true⟩]] false).written = [1] := by
  have h := foldl_folders_cropStep ow folders 0 []
  refine ⟨rfl, ?_, ?_, by decide, by decide⟩
  · simp [crop_all_images_by_masks, h]
  · simp [crop_all_images_by_masks, h]

/-! ## Pixel-level characterisation of the crop loop -/

lemma setPixelColor_pix (r : Raster) (x y : ℕ) (c : Pixel) (a b : ℕ) :
    (setPixelColor r x y c).pix a b = if a = x ∧ b = y then c else r.pix a b := rfl

lemma cropPixStep_pix_ne (mk : Raster) (y : ℕ) (acc : Raster) (x a b : ℕ)
    (h : ¬(a = x ∧ b = y)) :
    (cropPixStep mk y acc x).pix a b = acc.pix a b := by
  unfold cropPixStep
  split
  · rw [setPixelColor_pix, if_neg h]
  · rfl

lemma cropPixStep_pix_self (mk : Raster) (y : ℕ) (acc : Raster) (x : ℕ) :
    (cropPixStep mk y acc x).pix x y =
      if (mk.pix x y).a = 0 then whiteColor else acc.pix x y := by
  unfold cropPixStep
  split
  · rename_i hC
    simp [setPixelColor_pix, hC]
  · rename_i hC
    simp [hC]

lemma cropPixStep_w (mk : Raster) (y : ℕ) (acc : Raster) (x : ℕ) :
    (cropPixStep mk y acc x).w = acc.w := by
  unfold cropPixStep
  split <;> rfl

lemma cropPixStep_h (mk : Raster) (y : ℕ) (acc : Raster) (x : ℕ) :
    (cropPixStep mk y acc x).h = acc.h := by
  unfold cropPixStep
  split <;> rfl

lemma foldl_cropPixStep_pix (mk : Raster) (y : ℕ) :
    ∀ (l : List ℕ) (acc : Raster) (a b : ℕ),
    (l.foldl (cropPixStep mk y) acc).pix a b
      = if b = y ∧ a ∈ l ∧ (mk.pix a y).a = 0 then whiteColor else acc.pix a b := by
  intro l
  induction l with
  | nil => intro acc a b; simp
  | cons x xs ih =>
    intro acc a b
    rw [List.foldl_cons, ih]
    by_cases hby : b = y
    · subst hby
      by_cases hax : a = x
      · subst hax
        by_cases hC : (mk.pix a b).a = 0
        · by_cases hmem : a ∈ xs <;>
            simp [hC, hmem, cropPixStep_pix_self]
        · simp [hC, cropPixStep_pix_self]
      · by_cases hmem : a ∈ xs <;>
          by_cases hC : (mk.pix a b).a = 0 <;>
            simp [hax, hmem, hC, cropPixStep_pix_ne mk b acc x a b (fun h => hax h.1)]
    · have h1 : ¬(b = y ∧ a ∈ xs ∧ (mk.pix a y).a = 0) := fun h => hby h.1
      have h2 : ¬(b = y ∧ a ∈ x :: xs ∧ (mk.pix a y).a = 0) := fun h => hby h.1
      rw [if_neg h1, if_neg h2, cropPixStep_pix_ne mk y acc x a b (fun h => hby h.2)]

lemma foldl_cropPixStep_w (mk : Raster) (y : ℕ) :
    ∀ (l : List ℕ) (acc : Raster), (l.foldl (cropPixStep mk y) acc).w = acc.w := by
  intro l
  induction l with
  | nil => intro acc; rfl
  | cons x xs ih => intro acc; rw [List.foldl_cons, ih, cropPixStep_w]

lemma foldl_cropPixStep_h (mk : Raster) (y : ℕ) :
    ∀ (l : List ℕ) (acc : Raster), (l.foldl (cropPixStep mk y) acc).h = acc.h := by
  intro l
  induction l with
  | nil => intro acc; rfl
  | cons x xs ih => intro acc; rw [List.foldl_cons, ih, cropPixStep_h]

lemma cropRowFold_pix (mk : Raster) (w : ℕ) (acc : Raster) (y a b : ℕ) :
    (cropRowFold mk w acc y).pix a b
      = if b = y ∧ a ∈ List.range w ∧ (mk.pix a y).a = 0
        then whiteColor else acc.pix a b :=
  foldl_cropPixStep_pix mk y (List.range w) acc a b

lemma foldl_cropRowFold_pix (mk : Raster) (w : ℕ) :
    ∀ (l : List ℕ) (acc : Raster) (a b : ℕ),
    (l.foldl (cropRowFold mk w) acc).pix a b
      = if b ∈ l ∧ a ∈ List.range w ∧ (mk.pix a b).a = 0
        then whiteColor else acc.pix a b := by
  intro l
  induction l with
  | nil => intro acc a b; simp
  | cons y ys ih =>
    intro acc a b
    rw [List.foldl_cons, ih, cropRowFold_pix]
    by_cases hby : b = y
    · subst hby
      by_cases hrest : a ∈ List.range w ∧ (mk.pix a b).a = 0
      · by_cases hmem : b ∈ ys <;> simp [hrest.1, hrest.2, hmem]
      · have hx : ¬(b ∈ ys ∧ a ∈ List.range w ∧ (mk.pix a b).a = 0) :=
          fun h => hrest ⟨h.2.1, h.2.2⟩
        have hy2 : ¬(b ∈ b :: ys ∧ a ∈ List.range w ∧ (mk.pix a b).a = 0) :=
          fun h => hrest ⟨h.2.1, h.2.2⟩
        have hy3 : ¬(b = b ∧ a ∈ List.range w ∧ (mk.pix a b).a = 0) :=
          fun h => hrest ⟨h.2.1, h.2.2⟩
        rw [if_neg hx, if_neg hy2, if_neg hy3]
    · have h1 : ¬(b = y ∧ a ∈ List.range w ∧ (mk.pix a y).a = 0) := fun h => hby h.1
      rw [if_neg h1]
      by_cases hmem : b ∈ ys
      · simp [hmem, List.mem_cons, hby]
      · simp [hmem, List.mem_cons, hby]

lemma foldl_cropRowFold_w (mk : Raster) (w : ℕ) :
    ∀ (l : List ℕ) (acc : Raster), (l.foldl (cropRowFold mk w) acc).w = acc.w := by
  intro l
  induction l with
  | nil => intro acc; rfl
  | cons y ys ih =>
    intro acc
    rw [List.foldl_cons, ih]
    exact foldl_cropPixStep_w mk y (List.range w) acc

lemma foldl_cropRowFold_h (mk : Raster) (w : ℕ) :
    ∀ (l : List ℕ) (acc : Raster), (l.foldl (cropRowFold mk w) acc).h = acc.h := by
  intro l
  induction l with
  | nil => intro acc; rfl
  | cons y ys ih =>
    intro acc
    rw [List.foldl_cons, ih]
    exact foldl_cropPixStep_h mk y (List.range w) acc

/-- C3: on an image and a mask of equal dimensions, the single-image crop
leaves the canvas state untouched and produces a new raster of the image
dimensions in which every pixel with mask alpha zero is pure white and
every pixel with nonzero mask alpha is byte-for-byte the source image
pixel. -/
theorem crop_by_mask_whitening (st : CanvasState) (im mk : Raster)
    (hi : st.image = some im) (hm : st.mask = some mk)
    (hw : mk.w = im.w) (hh : mk.h = im.h) :
    (crop_by_mask st).2 = st ∧
    ∃ cr, (crop_by_mask st).1 = some cr ∧ cr.w = im.w ∧ cr.h = im.h ∧
      ∀ x y, x < im.w → y < im.h →
        cr.pix x y = if (mk.pix x y).a = 0 then whiteColor else im.pix x y := by
  have hcrop : crop_by_mask st
      = (some ((List.range im.h).foldl (cropRowFold mk im.w) im), st) := by
    unfold crop_by_mask
    rw [hi, hm]
  refine ⟨by rw [hcrop], (List.range im.h).foldl (cropRowFold mk im.w) im,
    by rw [hcrop], foldl_cropRowFold_w mk im.w _ im, foldl_cropRowFold_h mk im.w _ im,
    fun x y hx hy => ?_⟩
  rw [foldl_cropRowFold_pix]
  simp [List.mem_range, hx, hy]

/-- A 1x1 test image with a distinctive pixel. -/
def imOne : Raster := ⟨1, 1, fun _ _ => ⟨7, 8, 9, 255⟩⟩

/-- A 1x1 fully transparent mask. -/
def mkOne : Raster := ⟨1, 1, fun _ _ => ⟨0, 0, 0, 0⟩⟩

/-- Canvas state holding the 1x1 image and mask. -/
def stCrop : CanvasState := ⟨some imOne, some mkOne, 500, 500, 1, 1, (0, 0), []⟩

theorem crop_by_mask_whitening_witness :
    (crop_by_mask stCrop).2 = stCrop ∧
    ((crop_by_mask stCrop).1.map fun cr => cr.pix 0 0) = some whiteColor := by
  obtain ⟨hst, cr, hcr, hwid, hhgt, hpix⟩ :=
    crop_by_mask_whitening stCrop imOne mkOne rfl rfl rfl rfl
  refine ⟨hst, ?_⟩
  rw [hcr]
  simp [hpix 0 0 (by decide) (by decide), mkOne]

/-! ## Characterisation of the nearest-marker scan -/

lemma stepNearest_keep (pos : ℤ × ℤ) (thr : ℤ) (i : ℕ) (b : Option (ℕ × ℤ))
    (m : ℤ × ℤ)
    (hm : ¬(0 ≤ thr ∧ distSq m pos ≤ thr * thr)
        ∨ ∃ p, b = some p ∧ p.2 ≤ distSq m pos) :
    stepNearest pos thr i b m = b := by
  cases b with
  | none =>
    rcases hm with hq | ⟨p, hp, _⟩
    · simp [stepNearest, hq]
    · exact absurd hp (by simp)
  | some p =>
    obtain ⟨j, bd⟩ := p
    rcases hm with hq | ⟨q, hq2, hle⟩
    · simp only [stepNearest]
      rw [if_neg]
      rintro ⟨_, h2⟩
      exact hq h2
    · injection hq2 with hq3
      subst hq3
      simp only [stepNearest]
      rw [if_neg]
      rintro ⟨h1, _⟩
      exact absurd h1 (not_lt.mpr hle)

lemma findNearestAux_keep (pos : ℤ × ℤ) (thr : ℤ) :
    ∀ (l : List (ℤ × ℤ)) (i : ℕ) (b : Option (ℕ × ℤ)),
    (∀ m ∈ l, ¬(0 ≤ thr ∧ distSq m pos ≤ thr * thr)
        ∨ ∃ p, b = some p ∧ p.2 ≤ distSq m pos) →
    findNearestAux pos thr l i b = b := by
  intro l
  induction l with
  | nil => intro i b _; rfl
  | cons m rest ih =>
    intro i b hl
    have hstep : stepNearest pos thr i b m = b :=
      stepNearest_keep pos thr i b m (hl m (List.mem_cons_self m rest))
    show findNearestAux pos thr rest (i + 1) (stepNearest pos thr i b m) = b
    rw [hstep]
    exact ih (i + 1) b (fun m' hm' => hl m' (List.mem_cons_of_mem m hm'))

lemma findNearestAux_select (pos : ℤ × ℤ) (thr : ℤ) :
    ∀ (l : List (ℤ × ℤ)) (i : ℕ) (hi : i < l.length) (k : ℕ) (b : Option (ℕ × ℤ)),
    (0 ≤ thr ∧ distSq (l.get ⟨i, hi⟩) pos ≤ thr * thr) →
    (∀ j (hj : j < l.length), distSq (l.get ⟨i, hi⟩) pos ≤ distSq (l.get ⟨j, hj⟩) pos) →
    (∀ j (hj : j < i), distSq (l.get ⟨i, hi⟩) pos
        < distSq (l.get ⟨j, Nat.lt_trans hj hi⟩) pos) →
    (b = none ∨ ∃ p, b = some p ∧ distSq (l.get ⟨i, hi⟩) pos < p.2) →
    findNearestAux pos thr l k b = some (k + i, distSq (l.get ⟨i, hi⟩) pos) := by
  intro l
  induction l with
  | nil => intro i hi; exact absurd hi (by simp)
  | cons m rest ih =>
    intro i hi k b hqual hmin hfirst hb
    cases i with
    | zero =>
      have hd0 : (m :: rest).get ⟨0, hi⟩ = m := rfl
      rw [hd0] at hqual hmin
      have hstep : stepNearest pos thr k b m = some (k, distSq m pos) := by
        cases b with
        | none => simp [stepNearest, hqual.1, hqual.2]
        | some p =>
          obtain ⟨j, bd⟩ := p
          rcases hb with hb0 | ⟨q, hq, hlt⟩
          · exact absurd hb0 (by simp)
          · injection hq with hq2
            subst hq2
            simp only [stepNearest]
            rw [if_pos ⟨hlt, hqual⟩]
      show findNearestAux pos thr rest (k + 1) (stepNearest pos thr k b m)
          = some (k + 0, distSq m pos)
      rw [hstep, Nat.add_zero]
      apply findNearestAux_keep
      intro m' hm'
      obtain ⟨j, rfl⟩ := List.mem_iff_get.mp hm'
      exact Or.inr ⟨(k, distSq m pos), rfl,
        hmin (j.val + 1) (Nat.succ_lt_succ j.isLt)⟩
    | succ n =>
      have hn : n < rest.length := Nat.lt_of_succ_lt_succ hi
      have hdi : distSq ((m :: rest).get ⟨n + 1, hi⟩) pos
          = distSq (rest.get ⟨n, hn⟩) pos := rfl
      have hhead : distSq (rest.get ⟨n, hn⟩) pos < distSq m pos := by
        have := hfirst 0 (Nat.succ_pos n)
        rwa [hdi] at this
      have hinv : stepNearest pos thr k b m = none
          ∨ ∃ p, stepNearest pos thr k b m = some p
              ∧ distSq (rest.get ⟨n, hn⟩) pos < p.2 := by
        cases b with
        | none =>
          by_cases hq : 0 ≤ thr ∧ distSq m pos ≤ thr * thr
          · exact Or.inr ⟨(k, distSq m pos), by simp [stepNearest, hq], hhead⟩
          · exact Or.inl (by simp [stepNearest, hq])
        | some p =>
          obtain ⟨j, bd⟩ := p
          rcases hb with hb0 | ⟨q, hq, hlt⟩
          · exact absurd hb0 (by simp)
          · injection hq with hq2
            subst hq2
            by_cases hcond : distSq m pos < bd ∧ (0 ≤ thr ∧ distSq m pos ≤ thr * thr)
            · refine Or.inr ⟨(k, distSq m pos), ?_, hhead⟩
              simp only [stepNearest]
              rw [if_pos hcond]
            · refine Or.inr ⟨(j, bd), ?_, by rwa [hdi] at hlt⟩
              simp only [stepNearest]
              rw [if_neg hcond]
      show findNearestAux pos thr rest (k + 1) (stepNearest pos thr k b m)
          = some (k + (n + 1), distSq ((m :: rest).get ⟨n + 1, hi⟩) pos)
      rw [hdi, show k + (n + 1) = (k + 1) + n by omega]
      exact ih n hn (k + 1) (stepNearest pos thr k b m)
        (by rwa [hdi] at hqual)
        (fun j hj => by
          have := hmin (j + 1) (Nat.succ_lt_succ hj)
          rwa [hdi] at this)
        (fun j hj => by
          have := hfirst (j + 1) (Nat.succ_lt_succ hj)
          rwa [hdi] at this)
        hinv

/-- C2: for every marker list, query position and threshold (with the SAM
pipeline active): if no marker is within the threshold distance the list
is unchanged and no action results — no error, no regeneration; if some
marker is within threshold, the first marker attaining the minimal
distance is removed and the handler regenerates with exactly the
remaining list, or clears the mask when the remaining list is empty. -/
theorem remove_nearest_marker_contract (markers : List (ℤ × ℤ)) (pos : ℤ × ℤ)
    (thr : ℤ) :
    ((∀ m ∈ markers, ¬(0 ≤ thr ∧ distSq m pos ≤ thr * thr)) →
      removeNearestPipeline true markers pos thr = (markers, RegenAction.noAction)) ∧
    (∀ i (hi : i < markers.length),
      (0 ≤ thr ∧ distSq (markers.get ⟨i, hi⟩) pos ≤ thr * thr) →
      (∀ j (hj : j < markers.length),
        distSq (markers.get ⟨i, hi⟩) pos ≤ distSq (markers.get ⟨j, hj⟩) pos) →
      (∀ j (hj : j < i),
        distSq (markers.get ⟨i, hi⟩) pos
          < distSq (markers.get ⟨j, Nat.lt_trans hj hi⟩) pos) →
      removeNearestPipeline true markers pos thr =
        (markers.eraseIdx i,
         if markers.eraseIdx i = [] then RegenAction.clearMask
         else RegenAction.regen (markers.eraseIdx i))) := by
  constructor
  · intro hno
    by_cases he : markers = []
    · simp [removeNearestPipeline, remove_nearest_marker, he]
    · have haux : findNearestAux pos thr markers 0 none = none :=
        findNearestAux_keep pos thr markers 0 none (fun m hm => Or.inl (hno m hm))
    
      simp [removeNearestPipeline, remove_nearest_marker, he, haux]
  · intro i hi hqual hmin hfirst
    have hne : markers ≠ [] := by
      intro h
      subst h
      exact absurd hi (by simp)
    have hsel : findNearestAux pos thr markers 0 none
        = some (0 + i, distSq (markers.get ⟨i, hi⟩) pos) :=
      findNearestAux_select pos thr markers i hi 0 none hqual hmin hfirst (Or.inl rfl)
    rw [Nat.zero_add] at hsel
    by_cases hrem : markers.eraseIdx i = [] <;>
      simp [removeNearestPipeline, remove_nearest_marker, on_sam_marker_removed,
        hne, hsel, hrem]

theorem remove_nearest_marker_contract_witness :
    removeNearestPipeline true [((10 : ℤ), (10 : ℤ)), (200, 200)] (12, 12) 5
      = ([((200 : ℤ), (200 : ℤ))], RegenAction.regen [(200, 200)]) := by
  have h := (remove_nearest_marker_contract [((10 : ℤ), (10 : ℤ)), (200, 200)]
    (12, 12) 5).2 0 (by decide) (by decide) (by decide) (by decide)
  simpa using h
